import Mathlib

/-!
# StatsLib: inverse of the regularized lower incomplete gamma function

A shallow embedding of `incomplete_gamma_inv` from
`include/misc/incomplete_gamma_inv.hpp`.

Number model.  The C++ `double` is modelled by an arbitrary linearly ordered
field `α`; the real numbers `ℝ` are the intended instance.  Rounding,
overflow, underflow, infinities and NaN are outside the model.  The functions
of the C++ standard math library (`std::lgamma`, `std::log`, `std::sqrt`,
`std::exp`, `std::pow`) are not part of the repository and enter as a record
`CMath α`; `realMath` is their exact real-number reading.  The forward
evaluator `incomplete_gamma` is repository code that lives outside the
embedded file and enters as a function parameter `P`; only the scenario
`a = 10`, `p = 0.5` fixes it, to the regularized lower incomplete gamma
function named by the spec.
-/

namespace Stats

/-- The functions of the C++ standard math library used by
`incomplete_gamma_inv`, taken as parameters of the embedding. -/
structure CMath (α : Type) where
  /-- Reading of `std::lgamma`. -/
  lgamma : α → α
  /-- Reading of `std::log`. -/
  log : α → α
  /-- Reading of `std::sqrt`. -/
  sqrt : α → α
  /-- Reading of `std::exp`. -/
  exp : α → α
  /-- Reading of `std::pow` (also used for the call `pow(·,3)`). -/
  pow : α → α → α

/-- The exact real-number reading of the C++ math library: `lgamma a` is
`ln |Γ(a)|`, `pow x y` is the real power `x ^ y`. -/
noncomputable def realMath : CMath ℝ where
  lgamma := fun a => Real.log |Real.Gamma a|
  log := Real.log
  sqrt := Real.sqrt
  exp := Real.exp
  pow := fun x y => x ^ y

/-- The two diagnostic lines the function can print. -/
inductive Diagnostic where
  /-- Printed text: `error: incomplete_gamma_inv value <= 0 found.` -/
  | value_nonpositive
  /-- Printed text: `error: incomplete_gamma_inv failed to converge.` -/
  | failed_to_converge
  deriving DecidableEq, Repr

/-- The local variables of the Halley loop (lines 91-112).  The fields `calls`
and `iterates` are observations added by the embedding: `calls` lists, in
order, the arguments `value` at which `incomplete_gamma` was invoked (these are
also the points at which `std::log(value)` and `(a - 1.0)/value` are
evaluated), and `iterates` lists the content of `value` at the end of each
executed loop body. -/
structure LoopState (α : Type) where
  value : α
  halley_direc : α
  ig_val : α
  iter : Nat
  calls : List α
  iterates : List α

/-- What one call of `incomplete_gamma_inv` produces: the returned flag, the
content of the reference parameter `ret` at return, the diagnostic printed (if
any), and the loop variables at the exit of the `while` loop (`none` when the
function returns before reaching the loop). -/
structure Outcome (α : Type) where
  success : Bool
  ret : α
  diag : Option Diagnostic
  loop : Option (LoopState α)

/-- Number of loop bodies executed by the call. -/
def Outcome.iterations {α : Type} (o : Outcome α) : Nat :=
  match o.loop with
  | none => 0
  | some s => s.iter

/-- Arguments at which the call invoked the evaluator, in order. -/
def Outcome.evaluator_calls {α : Type} (o : Outcome α) : List α :=
  match o.loop with
  | none => []
  | some s => s.calls

section Code

variable {α : Type} [LinearOrderedField α]

/-- Source constant `iter_max` (line 52). -/
def iter_max : Nat := 1000

/-- Source constant `err_tol` (line 53). -/
def err_tol : α := 1E-08

/-- Lines 55-83: the closed-form starting value, i.e. the content of `value`
when the test `value <= 0.0` of line 85 is reached. -/
def initial_guess (m : CMath α) (a p : α) : α :=
  if a > 1.0 then
    let p_term := if p > 0.5 then m.log (1.0 - p) else m.log p
    let t_val := m.sqrt (-2.0 * p_term)
    let c_0 : α := 2.515517
    let c_1 : α := 0.802853
    let c_2 : α := 0.010328
    let d_0 : α := 1.0
    let d_1 : α := 1.432788
    let d_2 : α := 0.189269
    let d_3 : α := 0.001308
    let value := t_val - (c_0 + c_1*t_val + c_2*t_val*t_val)
      / (d_0 + d_1*t_val + d_2*t_val*t_val + d_3*t_val*t_val*t_val)
    let value := if p > 0.5 then value * (-1.0) else value
    let pow_term := m.pow (1.0 - 1.0/(9.0*a) - value/(3.0 * m.sqrt a)) 3
    max 1E-04 (a*pow_term)
  else
    let t_val := 1.0 - 0.253*a - 0.12*a*a
    if p < t_val then
      m.pow (p/t_val) (1.0/a)
    else
      1.0 - m.log (1.0 - (p - t_val)/(1.0 - t_val))

/-- Lines 91-92: the loop variables before the first test of the loop guard. -/
def loop_init (value : α) : LoopState α :=
  { value := value, halley_direc := 1.0, ig_val := 1.0, iter := 0, calls := [], iterates := [] }

/-- Line 94: the guard of the `while` loop. -/
def loop_guard (s : LoopState α) : Prop :=
  |s.halley_direc| ≥ err_tol ∧ s.iter < iter_max

instance loop_guard_decidable (s : LoopState α) : Decidable (loop_guard s) := by
  unfold loop_guard
  exact inferInstance

/-- Lines 95-111: one execution of the loop body. -/
def halley_step (m : CMath α) (P : α → α → α) (a p g : α) (s : LoopState α) : LoopState α :=
  let iter := s.iter + 1
  let ig_val := P a s.value
  let err_val := ig_val - p
  let deriv_1 := m.exp (- s.value + (a - 1.0) * m.log s.value - g)
  let deriv_2 := deriv_1 * ((a - 1.0)/s.value - 1.0)
  let ratio_val_1 := err_val / deriv_1
  let ratio_val_2 := deriv_2 / deriv_1
  let halley_direc := ratio_val_1 / max 0.8 (min 1.2 (1.0 - 0.5*ratio_val_1*ratio_val_2))
  let value := s.value - halley_direc
  let value := if value ≤ 0.0 then 0.5*(value + halley_direc) else value
  { value := value, halley_direc := halley_direc, ig_val := ig_val, iter := iter,
    calls := s.calls ++ [s.value], iterates := s.iterates ++ [value] }

/-- Lines 94-112: the `while` loop, run to its exit.  It terminates because the
guard bounds `iter` by `iter_max` and every body increments `iter`. -/
def halley_loop (m : CMath α) (P : α → α → α) (a p g : α) (s : LoopState α) : LoopState α :=
  if loop_guard s then halley_loop m P a p g (halley_step m P a p g s) else s
termination_by iter_max - s.iter
decreasing_by
  rename_i h
  have h2 : s.iter < iter_max := h.2
  show iter_max - (s.iter + 1) < iter_max - s.iter
  omega

/-- Lines 46-122: `incomplete_gamma_inv(a, p, ret)`.  The argument `ret` is the
content of the reference parameter at the call; the field `ret` of the
outcome is its content at return. -/
def incomplete_gamma_inv (m : CMath α) (P : α → α → α) (a p ret : α) : Outcome α :=
  let g := m.lgamma a
  let value := initial_guess m a p
  if value ≤ 0.0 then
    { success := false, ret := 0.0, diag := some Diagnostic.value_nonpositive, loop := none }
  else
    let s := halley_loop m P a p g (loop_init value)
    if |s.halley_direc| < err_tol ∧ s.iter < iter_max then
      { success := true, ret := s.value, diag := none, loop := some s }
    else
      { success := false, ret := ret, diag := some Diagnostic.failed_to_converge, loop := some s }

/-- The facts about the loop variables that every loop body keeps: the iterate
is positive, `iter` stays within the cap and counts the evaluator calls and the
recorded iterates, all recorded points are positive, and after the first body
the last recorded iterate is the current `value`. -/
def loop_inv (s : LoopState α) : Prop :=
  0 < s.value ∧ s.iter ≤ iter_max ∧ s.calls.length = s.iter ∧ s.iterates.length = s.iter
    ∧ (∀ x ∈ s.calls, 0 < x) ∧ (∀ x ∈ s.iterates, 0 < x)
    ∧ (0 < s.iter → s.iterates.getLast? = some s.value)

end Code

/-! ## Concrete evaluators used at concrete inputs -/

/-- The evaluator that returns the same value `c` at every point. -/
def const_evaluator {α : Type} (c : α) : α → α → α :=
  fun _ _ => c

/-- An evaluator whose residual against `p = 0.627` is `-0.8 * exp (-x)` below
`x = N` and zero from `N` on. -/
noncomputable def late_root_evaluator (N : ℕ) : ℝ → ℝ → ℝ :=
  fun _ x => if x < (N : ℝ) then 0.627 - 0.8 * Real.exp (-x) else 0.627

/-- Modelled from the spec: the forward evaluator `incomplete_gamma(a, x, ·)`,
whose source is not part of the embedded file, read as the function the spec
names: the regularized lower incomplete gamma function
`P(a,x) = (∫_0^x t^(a-1) e^(-t) dt) / Γ(a)`, the CDF of a Gamma(shape = a,
scale = 1) random variable. -/
noncomputable def incomplete_gamma (a x : ℝ) : ℝ :=
  (∫ t in (0:ℝ)..x, t ^ (a - 1) * Real.exp (-t)) / Real.Gamma a

/-- The polynomial `9! * (1 + x + x^2/2! + ... + x^9/9!)`, which closes the
integral for the shape `10`. -/
def tail_poly (x : ℝ) : ℝ :=
  362880 + 362880 * x + 181440 * x ^ 2 + 60480 * x ^ 3 + 15120 * x ^ 4 + 3024 * x ^ 5
    + 504 * x ^ 6 + 72 * x ^ 7 + 9 * x ^ 8 + x ^ 9

/-- The Gamma(10,1) density `x^9 e^(-x) / 9!`. -/
noncomputable def gamma_ten_density (x : ℝ) : ℝ := x ^ 9 * Real.exp (-x) / 362880

/-- The facts about the loop variables kept by every loop body of the scenario
`a = 10`, `p = 0.5` around the root `r`: the iterate stays in `[9.6, 9.75]`,
its distance to `r` shrinks by the factor `0.27` per body, at most `13` bodies
run, and after the first body the correction is bounded by the same geometric
sequence and bounds the distance to the root. -/
def near_root_inv (r : ℝ) (s : LoopState ℝ) : Prop :=
  9.6 ≤ s.value ∧ s.value ≤ 9.75 ∧ |s.value - r| ≤ 0.02 * 0.27 ^ s.iter ∧ s.iter ≤ 13
    ∧ (1 ≤ s.iter → |s.halley_direc| ≤ 0.0254 * 0.27 ^ (s.iter - 1)
        ∧ |s.value - r| ≤ 0.33 * |s.halley_direc|)

/-! ## The step and the estimators in the words of the spec -/

section SpecDefs
variable {α : Type} [LinearOrderedField α]

/-- Spec 4.1, large-shape regime, steps 1-6: `t = sqrt(-2 ln(min(p, 1-p)))`,
the rational approximation `z0` of the normal quantile, its sign `z`, the
Wilson-Hilferty cube and the floor `1e-4`. -/
def spec_large_shape_guess (m : CMath α) (a p : α) : α :=
  let t := m.sqrt (-2 * m.log (min p (1 - p)))
  let z0 := t - (2.515517 + 0.802853 * t + 0.010328 * t ^ 2)
    / (1 + 1.432788 * t + 0.189269 * t ^ 2 + 0.001308 * t ^ 3)
  let z := if p > 0.5 then - z0 else z0
  max 1e-4 (a * (1 - 1 / (9 * a) - z / (3 * m.sqrt a)) ^ 3)

/-- Line 76: the small-shape threshold `t_val`. -/
def small_shape_threshold (a : α) : α := 1.0 - 0.253*a - 0.12*a*a

end SpecDefs

/-! ## The loop: unfolding, exit and invariants -/

section Loop

variable {α : Type} [LinearOrderedField α]

theorem halley_loop_unfold (m : CMath α) (P : α → α → α) (a p g : α) (s : LoopState α) :
    halley_loop m P a p g s
      = if loop_guard s then halley_loop m P a p g (halley_step m P a p g s) else s := by
  rw [halley_loop]

theorem halley_loop_of_guard (m : CMath α) (P : α → α → α) (a p g : α) (s : LoopState α)
    (h : loop_guard s) :
    halley_loop m P a p g s = halley_loop m P a p g (halley_step m P a p g s) := by
  rw [halley_loop_unfold, if_pos h]

theorem halley_loop_of_not_guard (m : CMath α) (P : α → α → α) (a p g : α) (s : LoopState α)
    (h : ¬ loop_guard s) : halley_loop m P a p g s = s := by
  rw [halley_loop_unfold, if_neg h]

/-- Loop rule: a property kept by every guarded loop body holds at the exit,
and the guard is false there. -/
theorem halley_loop_rule (m : CMath α) (P : α → α → α) (a p g : α)
    (Inv : LoopState α → Prop)
    (hstep : ∀ s, loop_guard s → Inv s → Inv (halley_step m P a p g s))
    (s : LoopState α) (hs : Inv s) :
    Inv (halley_loop m P a p g s) ∧ ¬ loop_guard (halley_loop m P a p g s) := by
  obtain ⟨n, hn⟩ : ∃ n, iter_max - s.iter = n := ⟨_, rfl⟩
  induction n using Nat.strong_induction_on generalizing s with
  | _ n ih =>
    by_cases hg : loop_guard s
    · rw [halley_loop_of_guard m P a p g s hg]
      have h2 : s.iter < iter_max := hg.2
      refine ih (iter_max - (halley_step m P a p g s).iter) ?_ _ (hstep s hg hs) rfl
      show iter_max - (s.iter + 1) < n
      omega
    · rw [halley_loop_of_not_guard m P a p g s hg]
      exact ⟨hs, hg⟩

theorem loop_guard_init (x : α) : loop_guard (loop_init x) := by
  unfold loop_guard loop_init err_tol iter_max
  constructor
  · norm_num
  · norm_num

/-- Lines 107-111 in terms of the correction computed by the same body. -/
theorem halley_step_value (m : CMath α) (P : α → α → α) (a p g : α) (s : LoopState α) :
    (halley_step m P a p g s).value
      = if s.value - (halley_step m P a p g s).halley_direc ≤ 0
        then s.value / 2 else s.value - (halley_step m P a p g s).halley_direc := by
  have h : (halley_step m P a p g s).value
      = if s.value - (halley_step m P a p g s).halley_direc ≤ 0.0
        then 0.5 * (s.value - (halley_step m P a p g s).halley_direc
          + (halley_step m P a p g s).halley_direc)
        else s.value - (halley_step m P a p g s).halley_direc := rfl
  rw [h]
  generalize (halley_step m P a p g s).halley_direc = d
  have h0 : (0.0 : α) = 0 := by norm_num
  rw [h0]
  split_ifs
  · rw [sub_add_cancel]
    norm_num
    ring
  · rfl

theorem halley_step_value_pos (m : CMath α) (P : α → α → α) (a p g : α) (s : LoopState α)
    (h : 0 < s.value) : 0 < (halley_step m P a p g s).value := by
  rw [halley_step_value]
  split_ifs with h1
  · exact half_pos h
  · exact lt_of_not_ge h1

theorem loop_inv_init (x : α) (hx : 0 < x) : loop_inv (loop_init x) := by
  refine ⟨hx, ?_, rfl, rfl, ?_, ?_, ?_⟩
  · show 0 ≤ iter_max
    omega
  · intro y hy
    simp [loop_init] at hy
  · intro y hy
    simp [loop_init] at hy
  · intro h
    simp [loop_init] at h

theorem loop_inv_step (m : CMath α) (P : α → α → α) (a p g : α) (s : LoopState α)
    (hg : loop_guard s) (hs : loop_inv s) : loop_inv (halley_step m P a p g s) := by
  obtain ⟨h1, _, h3, h4, h5, h6, _⟩ := hs
  have hpos := halley_step_value_pos m P a p g s h1
  have hlt : s.iter < iter_max := hg.2
  refine ⟨hpos, ?_, ?_, ?_, ?_, ?_, ?_⟩
  · show s.iter + 1 ≤ iter_max
    omega
  · show (s.calls ++ [s.value]).length = s.iter + 1
    simp [h3]
  · show (s.iterates ++ [(halley_step m P a p g s).value]).length = s.iter + 1
    simp [h4]
  · intro y hy
    have hy2 : y ∈ s.calls ++ [s.value] := hy
    rcases List.mem_append.1 hy2 with h | h
    · exact h5 y h
    · rw [List.mem_singleton.1 h]
      exact h1
  · intro y hy
    have hy2 : y ∈ s.iterates ++ [(halley_step m P a p g s).value] := hy
    rcases List.mem_append.1 hy2 with h | h
    · exact h6 y h
    · rw [List.mem_singleton.1 h]
      exact hpos
  · intro _
    show (s.iterates ++ [(halley_step m P a p g s).value]).getLast? = _
    simp

/-- At the exit of the loop started from a positive value the invariant holds,
the guard is false, at least one body has run, and the exit state is the
result of a loop body executed at a positive iterate. -/
theorem halley_loop_exit (m : CMath α) (P : α → α → α) (a p g x : α) (hx : 0 < x) :
    loop_inv (halley_loop m P a p g (loop_init x))
      ∧ ¬ loop_guard (halley_loop m P a p g (loop_init x))
      ∧ 1 ≤ (halley_loop m P a p g (loop_init x)).iter
      ∧ ∃ s0 : LoopState α, 0 < s0.value
          ∧ halley_loop m P a p g (loop_init x) = halley_step m P a p g s0 := by
  have hg := loop_guard_init x
  rw [halley_loop_of_guard m P a p g _ hg]
  have h := halley_loop_rule m P a p g
    (fun s => loop_inv s ∧ 1 ≤ s.iter
      ∧ ∃ s0 : LoopState α, 0 < s0.value ∧ s = halley_step m P a p g s0)
    (fun s hg hs => ⟨loop_inv_step m P a p g s hg hs.1, Nat.le_add_left 1 s.iter,
      s, hs.1.1, rfl⟩)
    (halley_step m P a p g (loop_init x))
    ⟨loop_inv_step m P a p g _ hg (loop_inv_init x hx), Nat.le_add_left 1 _,
      loop_init x, hx, rfl⟩
  exact ⟨h.1.1, h.2, h.1.2.1, h.1.2.2⟩

theorem incomplete_gamma_inv_of_nonpos (m : CMath α) (P : α → α → α) (a p ret : α)
    (h : initial_guess m a p ≤ 0) :
    incomplete_gamma_inv m P a p ret
      = { success := false, ret := 0, diag := some Diagnostic.value_nonpositive, loop := none } := by
  have h0 : initial_guess m a p ≤ 0.0 := by
    norm_num
    exact h
  simp only [incomplete_gamma_inv, if_pos h0]
  norm_num

theorem incomplete_gamma_inv_of_pos (m : CMath α) (P : α → α → α) (a p ret : α)
    (h : 0 < initial_guess m a p) :
    incomplete_gamma_inv m P a p ret
      = if |(halley_loop m P a p (m.lgamma a) (loop_init (initial_guess m a p))).halley_direc|
            < err_tol
          ∧ (halley_loop m P a p (m.lgamma a) (loop_init (initial_guess m a p))).iter < iter_max
        then { success := true,
               ret := (halley_loop m P a p (m.lgamma a) (loop_init (initial_guess m a p))).value,
               diag := none,
               loop := some (halley_loop m P a p (m.lgamma a) (loop_init (initial_guess m a p))) }
        else { success := false, ret := ret, diag := some Diagnostic.failed_to_converge,
               loop := some (halley_loop m P a p (m.lgamma a) (loop_init (initial_guess m a p))) } := by
  have h0 : ¬ initial_guess m a p ≤ 0.0 := by
    norm_num
    exact h
  simp only [incomplete_gamma_inv, if_neg h0]

end Loop

/-! ## A start that is already a root -/

section Root
variable {α : Type} [LinearOrderedField α]

end Root

/-! ## Runs in the real-number model with shape `a = 1` -/

theorem lgamma_real_one : realMath.lgamma 1 = 0 := by
  simp [realMath, Real.Gamma_one]

theorem halley_step_direc_one (P : ℝ → ℝ → ℝ) (p : ℝ) (s : LoopState ℝ) :
    (halley_step realMath P 1 p (realMath.lgamma 1) s).halley_direc
      = ((P 1 s.value - p) * Real.exp s.value)
        / max 0.8 (min 1.2 (1 + 0.5 * ((P 1 s.value - p) * Real.exp s.value))) := by
  rw [lgamma_real_one]
  have hE : Real.exp (-s.value) ≠ 0 := (Real.exp_pos _).ne'
  have h1 : (P 1 s.value - p) / Real.exp (-s.value) = (P 1 s.value - p) * Real.exp s.value := by
    rw [Real.exp_neg]
    field_simp
  simp only [halley_step, realMath]
  norm_num
  rw [h1]

theorem initial_guess_real_one (p : ℝ) (h : p = 0.627) : initial_guess realMath 1 p = 1 := by
  subst h
  simp only [initial_guess, realMath]
  norm_num

theorem initial_guess_real_zero : initial_guess realMath 1 0 = 0 := by
  simp only [initial_guess, realMath]
  norm_num

theorem late_root_step (N : ℕ) (s : LoopState ℝ) (k : ℕ) (hk : s.value = (k : ℝ)) :
    (k < N → (halley_step realMath (late_root_evaluator N) 1 0.627 (realMath.lgamma 1) s).halley_direc
        = -1)
    ∧ (N ≤ k → (halley_step realMath (late_root_evaluator N) 1 0.627 (realMath.lgamma 1) s).halley_direc
        = 0) := by
  rw [halley_step_direc_one]
  constructor
  · intro h
    have h2 : (k : ℝ) < (N : ℝ) := by exact_mod_cast h
    have h3 : (late_root_evaluator N 1 s.value - 0.627) * Real.exp s.value = -0.8 := by
      simp only [late_root_evaluator, hk, if_pos h2]
      rw [Real.exp_neg]
      have := (Real.exp_pos (k:ℝ)).ne'
      field_simp
      ring
    rw [h3]
    norm_num
  · intro h
    have h2 : ¬ (k : ℝ) < (N : ℝ) := by
      have : (N : ℝ) ≤ (k : ℝ) := by exact_mod_cast h
      linarith
    have h3 : (late_root_evaluator N 1 s.value - 0.627) * Real.exp s.value = 0 := by
      simp only [late_root_evaluator, hk, if_neg h2]
      norm_num
    rw [h3]
    norm_num


theorem late_root_exit (N : ℕ) (hN : 1000 ≤ N) :
    (halley_loop realMath (late_root_evaluator N) 1 0.627 (realMath.lgamma 1) (loop_init 1)).iter
        = 1000
    ∧ (N = 1000 → (halley_loop realMath (late_root_evaluator N) 1 0.627 (realMath.lgamma 1)
        (loop_init 1)).halley_direc = 0)
    ∧ (1000 < N → |(halley_loop realMath (late_root_evaluator N) 1 0.627 (realMath.lgamma 1)
        (loop_init 1)).halley_direc| = 1) := by
  have h := halley_loop_rule realMath (late_root_evaluator N) 1 0.627 (realMath.lgamma 1)
    (fun s => s.iter ≤ 1000 ∧ (s.iter < N → s.value = (s.iter : ℝ) + 1 ∧ |s.halley_direc| = 1)
      ∧ (s.iter = N → s.halley_direc = 0))
    (by
      intro s hg hs
      obtain ⟨_, h2, _⟩ := hs
      have hlt : s.iter < 1000 := hg.2
      obtain ⟨hv, _⟩ := h2 (by omega)
      have hv2 : s.value = ((s.iter + 1 : ℕ) : ℝ) := by
        rw [hv]
        push_cast
        ring
      have hd := late_root_step N s (s.iter + 1) hv2
      have hval := halley_step_value realMath (late_root_evaluator N) 1 0.627
        (realMath.lgamma 1) s
      have hit : (halley_step realMath (late_root_evaluator N) 1 0.627 (realMath.lgamma 1) s).iter
          = s.iter + 1 := rfl
      have hpos : (0 : ℝ) ≤ (s.iter : ℝ) := Nat.cast_nonneg _
      refine ⟨by rw [hit]; omega, ?_, ?_⟩
      · intro h4
        rw [hit] at h4
        have hd1 := hd.1 h4
        rw [hd1] at hval
        rw [hit, hval, hd1, hv]
        have : ¬ ((s.iter : ℝ) + 1 - (-1) ≤ 0) := by linarith
        rw [if_neg this]
        push_cast
        norm_num
      · intro h4
        rw [hit] at h4
        exact hd.2 (by omega))
    (loop_init 1)
    (by
      refine ⟨by simp [loop_init], ?_, ?_⟩
      · intro _
        simp [loop_init]
        norm_num
      · intro h0
        simp [loop_init] at h0
        omega)
  obtain ⟨⟨h1, h2, h3⟩, hng⟩ := h
  have hit : (halley_loop realMath (late_root_evaluator N) 1 0.627 (realMath.lgamma 1)
      (loop_init 1)).iter = 1000 := by
    by_contra hne
    apply hng
    have hlt : (halley_loop realMath (late_root_evaluator N) 1 0.627 (realMath.lgamma 1)
      (loop_init 1)).iter < 1000 := by omega
    refine ⟨?_, hlt⟩
    rw [(h2 (by omega)).2]
    unfold err_tol
    norm_num
  refine ⟨hit, ?_, ?_⟩
  · intro hN2
    exact h3 (by omega)
  · intro hN2
    exact (h2 (by omega)).2




theorem initial_guess_real_one_pos : 0 < initial_guess realMath 1 0.627 := by
  rw [initial_guess_real_one 0.627 rfl]
  norm_num

/-- With the root placed at `N >= 1000` the call runs all `1000` loop bodies and
reports failure; the last correction is `0` when `N = 1000` and has magnitude
`1` when `N > 1000`. -/
theorem late_root_outcome (N : ℕ) (hN : 1000 ≤ N) (ret : ℝ) :
    (incomplete_gamma_inv realMath (late_root_evaluator N) 1 0.627 ret).success = false
      ∧ ∃ s : LoopState ℝ,
          (incomplete_gamma_inv realMath (late_root_evaluator N) 1 0.627 ret).loop = some s
          ∧ s.iter = 1000 ∧ (N = 1000 → s.halley_direc = 0)
          ∧ (1000 < N → |s.halley_direc| = 1) := by
  obtain ⟨h1, h2, h3⟩ := late_root_exit N hN
  rw [incomplete_gamma_inv_of_pos _ _ _ _ _ initial_guess_real_one_pos,
    initial_guess_real_one 0.627 rfl]
  have hc : ¬ (|(halley_loop realMath (late_root_evaluator N) 1 0.627 (realMath.lgamma 1)
      (loop_init 1)).halley_direc| < err_tol
      ∧ (halley_loop realMath (late_root_evaluator N) 1 0.627 (realMath.lgamma 1)
        (loop_init 1)).iter < iter_max) := by
    intro h
    have := h.2
    rw [h1] at this
    unfold iter_max at this
    omega
  rw [if_neg hc]
  exact ⟨rfl, _, rfl, h1, h2, h3⟩

/-! ## Bounds used by the claims -/

section Bounds

variable {α : Type} [LinearOrderedField α]

theorem clamp_bounds (x : α) : (0.8 : α) ≤ max 0.8 (min 1.2 x) ∧ max 0.8 (min 1.2 x) ≤ 1.2 := by
  constructor
  · exact le_max_left _ _
  · apply max_le
    · norm_num
    · exact min_le_left _ _

theorem initial_guess_small_tail (m : CMath α) :
    initial_guess m 0.5 0.9 = 1 - m.log (1 - (0.9 - 0.8435) / (1 - 0.8435)) := by
  simp only [initial_guess]
  norm_num

theorem log_ratio_bounds : -0.449 < Real.log (1 - (0.9 - 0.8435) / (1 - 0.8435))
    ∧ Real.log (1 - (0.9 - 0.8435) / (1 - 0.8435)) < -0.447 := by
  have hx : (1 : ℝ) - (0.9 - 0.8435) / (1 - 0.8435) = (313 / 200)⁻¹ := by norm_num
  rw [hx, Real.log_inv]
  have hlo : (447 / 1000 : ℝ) < Real.log (313 / 200) := by
    rw [Real.lt_log_iff_exp_lt (by norm_num)]
    have h := Real.exp_bound' (x := 447 / 1000) (by norm_num) (by norm_num) (n := 5) (by norm_num)
    refine lt_of_le_of_lt h ?_
    simp [Finset.sum_range_succ, Nat.factorial]
    norm_num
  have hhi : Real.log (313 / 200) < (449 / 1000 : ℝ) := by
    rw [Real.log_lt_iff_lt_exp (by norm_num)]
    have h := Real.sum_le_exp_of_nonneg (x := 449 / 1000) (by norm_num) 5
    refine lt_of_lt_of_le ?_ h
    simp [Finset.sum_range_succ, Nat.factorial]
    norm_num
  constructor
  · norm_num
    linarith
  · norm_num
    linarith

end Bounds

/-! ## The scenario `a = 10`, `p = 0.5` -/

theorem tail_poly_hasDerivAt (x : ℝ) :
    HasDerivAt tail_poly (tail_poly x - x ^ 9) x := by
  unfold tail_poly
  have h : HasDerivAt
      (fun x : ℝ => 362880 + 362880 * x + 181440 * x ^ 2 + 60480 * x ^ 3 + 15120 * x ^ 4
        + 3024 * x ^ 5 + 504 * x ^ 6 + 72 * x ^ 7 + 9 * x ^ 8 + x ^ 9)
      (0 + 362880 * 1 + 181440 * (2 * x ^ 1) + 60480 * (3 * x ^ 2) + 15120 * (4 * x ^ 3)
        + 3024 * (5 * x ^ 4) + 504 * (6 * x ^ 5) + 72 * (7 * x ^ 6) + 9 * (8 * x ^ 7)
        + 9 * x ^ 8) x := by
    refine HasDerivAt.add (HasDerivAt.add (HasDerivAt.add (HasDerivAt.add (HasDerivAt.add
      (HasDerivAt.add (HasDerivAt.add (HasDerivAt.add (HasDerivAt.add ?_ ?_) ?_) ?_) ?_) ?_)
      ?_) ?_) ?_) ?_
    · exact hasDerivAt_const x _
    · exact (hasDerivAt_id x).const_mul _
    all_goals first
      | exact (hasDerivAt_pow _ x).const_mul _
      | exact hasDerivAt_pow _ x
  convert h using 1
  ring

/-- An antiderivative of `t^9 e^(-t)`. -/
theorem tail_antideriv (x : ℝ) :
    HasDerivAt (fun y => -(Real.exp (-y) * tail_poly y)) (x ^ 9 * Real.exp (-x)) x := by
  have h1 : HasDerivAt (fun y : ℝ => Real.exp (-y)) (Real.exp (-x) * (-1)) x :=
    (hasDerivAt_neg x).exp
  have h2 := (h1.mul (tail_poly_hasDerivAt x)).neg
  convert h2 using 1
  ring

theorem gamma_ten : Real.Gamma 10 = 362880 := by
  have h := Real.Gamma_nat_eq_factorial 9
  rw [show ((9:ℕ):ℝ) + 1 = 10 by norm_num] at h
  rw [h]
  norm_num [Nat.factorial]

theorem integral_closed (x : ℝ) :
    (∫ t in (0:ℝ)..x, t ^ ((10:ℝ) - 1) * Real.exp (-t))
      = 362880 - Real.exp (-x) * tail_poly x := by
  have hpow : ∀ t : ℝ, t ^ ((10:ℝ) - 1) = t ^ 9 := by
    intro t
    have h9 : ((10:ℝ) - 1) = ((9:ℕ):ℝ) := by norm_num
    rw [h9, Real.rpow_natCast]
  simp only [hpow]
  have hint : IntervalIntegrable (fun t : ℝ => t ^ 9 * Real.exp (-t)) MeasureTheory.volume 0 x := by
    apply Continuous.intervalIntegrable
    fun_prop
  have h := intervalIntegral.integral_eq_sub_of_hasDerivAt (a := 0) (b := x)
    (f := fun y => -(Real.exp (-y) * tail_poly y)) (fun t _ => tail_antideriv t) hint
  rw [h]
  simp [tail_poly]
  ring

/-- Closed form of the evaluator for the shape `10`. -/
theorem incomplete_gamma_ten (x : ℝ) :
    incomplete_gamma 10 x = 1 - Real.exp (-x) * tail_poly x / 362880 := by
  unfold incomplete_gamma
  rw [integral_closed]
  have hG : Real.Gamma 10 = 362880 := gamma_ten
  rw [hG]
  field_simp

theorem incomplete_gamma_ten_hasDerivAt (x : ℝ) :
    HasDerivAt (incomplete_gamma 10) (x ^ 9 * Real.exp (-x) / 362880) x := by
  have h := (tail_antideriv x).div_const 362880
  have h2 := h.const_add 1
  have : incomplete_gamma 10 = fun y => 1 + -(Real.exp (-y) * tail_poly y) / 362880 := by
    funext y
    rw [incomplete_gamma_ten]
    ring
  rw [this]
  exact h2

theorem lgamma_real_ten : realMath.lgamma 10 = Real.log 362880 := by
  have hG : Real.Gamma 10 = 362880 := gamma_ten
  simp only [realMath]
  rw [hG, abs_of_pos (by norm_num)]

theorem deriv_1_ten (x : ℝ) (hx : 0 < x) :
    Real.exp (- x + ((10:ℝ) - 1.0) * Real.log x - Real.log 362880)
      = x ^ 9 * Real.exp (-x) / 362880 := by
  have h9 : ((10:ℝ) - 1.0) = ((9:ℕ):ℝ) := by norm_num
  rw [h9, Real.exp_sub, Real.exp_add, Real.exp_nat_mul, Real.exp_log hx,
    Real.exp_log (by norm_num)]
  ring

theorem density_eq_exp (x : ℝ) (hx : 0 < x) :
    gamma_ten_density x = Real.exp (- x + 9 * Real.log x - Real.log 362880) := by
  unfold gamma_ten_density
  have h9 : (9:ℝ) = ((9:ℕ):ℝ) := by norm_num
  rw [h9, Real.exp_sub, Real.exp_add, Real.exp_nat_mul, Real.exp_log hx,
    Real.exp_log (by norm_num)]
  ring

theorem density_pos (x : ℝ) (hx : 0 < x) : 0 < gamma_ten_density x := by
  rw [density_eq_exp x hx]
  exact Real.exp_pos _

theorem density_ratio (x y : ℝ) (hx1 : 9.6 ≤ x) (hx2 : x ≤ 9.75) (hy1 : 9.6 ≤ y)
    (hy2 : y ≤ 9.75) :
    0.9878 ≤ gamma_ten_density y / gamma_ten_density x
      ∧ gamma_ten_density y / gamma_ten_density x ≤ 1.0122 := by
  have hx0 : 0 < x := by linarith
  have hy0 : 0 < y := by linarith
  rw [density_eq_exp x hx0, density_eq_exp y hy0, ← Real.exp_sub]
  have hd : (- y + 9 * Real.log y - Real.log 362880) - (- x + 9 * Real.log x - Real.log 362880)
      = (x - y) + 9 * Real.log (y / x) := by
    rw [Real.log_div hy0.ne' hx0.ne']
    ring
  rw [hd]
  have hup : Real.log (y / x) ≤ y / x - 1 := Real.log_le_sub_one_of_pos (div_pos hy0 hx0)
  have hlo : 1 - (y / x)⁻¹ ≤ Real.log (y / x) := Real.one_sub_inv_le_log_of_pos (div_pos hy0 hx0)
  rw [inv_div] at hlo
  have h1 : (x - y) + 9 * Real.log (y / x) ≤ 0.012 := by
    have : (x - y) + 9 * (y / x - 1) ≤ 0.012 := by
      have e : (x - y) + 9 * (y / x - 1) = (y - x) * (9 - x) / x := by
        field_simp
        ring
      rw [e, div_le_iff₀ hx0]
      nlinarith
    linarith
  have h2 : -0.012 ≤ (x - y) + 9 * Real.log (y / x) := by
    have : -0.012 ≤ (x - y) + 9 * (1 - x / y) := by
      have e : (x - y) + 9 * (1 - x / y) = (y - x) * (9 - y) / y := by
        field_simp
        ring
      rw [e, le_div_iff₀ hy0]
      nlinarith
    linarith
  generalize (x - y) + 9 * Real.log (y / x) = d at h1 h2
  have habs : |d| ≤ 1 := by
    rw [abs_le]
    constructor <;> linarith
  have h3 := Real.abs_exp_sub_one_sub_id_le habs
  rw [abs_le] at h3
  have hd2 : d ^ 2 ≤ 0.000144 := by nlinarith
  constructor <;> linarith [h3.1, h3.2]

theorem P_ten_hasDerivAt_density (x : ℝ) :
    HasDerivAt (incomplete_gamma 10) (gamma_ten_density x) x :=
  incomplete_gamma_ten_hasDerivAt x

theorem P_ten_continuous : Continuous (incomplete_gamma 10) :=
  continuous_iff_continuousAt.2 fun x => (P_ten_hasDerivAt_density x).continuousAt

/-- Mean value form of the residual. -/
theorem P_ten_mean_value (x r : ℝ) (hx1 : 9.6 ≤ x) (hx2 : x ≤ 9.75) (hr1 : 9.6 ≤ r)
    (hr2 : r ≤ 9.75) :
    ∃ y, 9.6 ≤ y ∧ y ≤ 9.75
      ∧ incomplete_gamma 10 x - incomplete_gamma 10 r = gamma_ten_density y * (x - r) := by
  rcases lt_trichotomy x r with h | h | h
  · obtain ⟨c, hc, hslope⟩ := exists_hasDerivAt_eq_slope (incomplete_gamma 10)
      gamma_ten_density h P_ten_continuous.continuousOn
      (fun y _ => P_ten_hasDerivAt_density y)
    refine ⟨c, by linarith [hc.1], by linarith [hc.2], ?_⟩
    rw [hslope]
    have : r - x ≠ 0 := by linarith
    field_simp
    ring
  · subst h
    exact ⟨x, hx1, hx2, by ring⟩
  · obtain ⟨c, hc, hslope⟩ := exists_hasDerivAt_eq_slope (incomplete_gamma 10)
      gamma_ten_density h P_ten_continuous.continuousOn
      (fun y _ => P_ten_hasDerivAt_density y)
    refine ⟨c, by linarith [hc.1], by linarith [hc.2], ?_⟩
    rw [hslope]
    have : x - r ≠ 0 := by linarith
    field_simp

/-- Near the root the Newton ratio `(P(10,x) - p)/f1(x)` is the distance to the
root up to a factor within `1.3%` of `1`. -/
theorem newton_ratio (x r : ℝ) (hx1 : 9.6 ≤ x) (hx2 : x ≤ 9.75) (hr1 : 9.6 ≤ r)
    (hr2 : r ≤ 9.75) (hr : incomplete_gamma 10 r = 0.5) :
    ∃ q, 0.9878 ≤ q ∧ q ≤ 1.0122
      ∧ (incomplete_gamma 10 x - 0.5) / gamma_ten_density x = q * (x - r) := by
  obtain ⟨y, hy1, hy2, hy⟩ := P_ten_mean_value x r hx1 hx2 hr1 hr2
  obtain ⟨h1, h2⟩ := density_ratio x y hx1 hx2 hy1 hy2
  refine ⟨gamma_ten_density y / gamma_ten_density x, h1, h2, ?_⟩
  rw [← hr, hy]
  ring

/-- One loop body near the root: whatever the damping factor in `[0.8,1.2]`,
the correction is at most `1.27` times the distance to the root and the new
iterate is at most `0.27` times as far from the root. -/
theorem halley_step_near_root (s : LoopState ℝ) (r g : ℝ) (hg : g = Real.log 362880)
    (hx1 : 9.6 ≤ s.value)
    (hx2 : s.value ≤ 9.75) (hr1 : 9.66 ≤ r) (hr2 : r ≤ 9.68)
    (hr : incomplete_gamma 10 r = 0.5) :
    |(halley_step realMath incomplete_gamma 10 0.5 g s).halley_direc|
        ≤ 1.27 * |s.value - r|
      ∧ |(halley_step realMath incomplete_gamma 10 0.5 g s).value - r|
        ≤ 0.27 * |s.value - r|
      ∧ |(halley_step realMath incomplete_gamma 10 0.5 g s).value - r|
        ≤ 0.33 * |(halley_step realMath incomplete_gamma 10 0.5 g s).halley_direc| := by
  have hx0 : 0 < s.value := by linarith
  obtain ⟨q, hq1, hq2, hq⟩ := newton_ratio s.value r hx1 hx2 (by linarith) (by linarith) hr
  have hval := halley_step_value realMath incomplete_gamma 10 0.5 g s
  have hd : (halley_step realMath incomplete_gamma 10 0.5 g s).halley_direc
      = (incomplete_gamma 10 s.value - 0.5)
          / Real.exp (- s.value + (10 - 1.0) * Real.log s.value - g)
        / max 0.8 (min 1.2 (1.0 - 0.5 * ((incomplete_gamma 10 s.value - 0.5)
            / Real.exp (- s.value + (10 - 1.0) * Real.log s.value - g))
          * (Real.exp (- s.value + (10 - 1.0) * Real.log s.value - g)
              * ((10 - 1.0)/s.value - 1.0)
            / Real.exp (- s.value + (10 - 1.0) * Real.log s.value - g)))) := rfl
  have hE : Real.exp (- s.value + (10 - 1.0) * Real.log s.value - g)
      = gamma_ten_density s.value := by
    rw [hg]
    exact deriv_1_ten s.value hx0
  rw [hE, hq] at hd
  obtain ⟨hc1, hc2⟩ := clamp_bounds (1.0 - 0.5 * (q * (s.value - r))
    * (gamma_ten_density s.value * ((10 - 1.0)/s.value - 1.0) / gamma_ten_density s.value))
  generalize max (0.8:ℝ) (min 1.2 (1.0 - 0.5 * (q * (s.value - r))
    * (gamma_ten_density s.value * ((10 - 1.0)/s.value - 1.0) / gamma_ten_density s.value)))
    = c at hd hc1 hc2
  have hc0 : 0 < c := by linarith
  have hrho : (halley_step realMath incomplete_gamma 10 0.5 g s).halley_direc
      = (q / c) * (s.value - r) := by
    rw [hd]
    ring
  have hρ1 : 0.82 ≤ q / c := by
    rw [le_div_iff₀ hc0]
    nlinarith
  have hρ2 : q / c ≤ 1.27 := by
    rw [div_le_iff₀ hc0]
    nlinarith
  generalize q / c = ρ at hrho hρ1 hρ2
  rw [hrho] at hval ⊢
  have hxr : |s.value - r| ≤ 0.15 := by
    rw [abs_le]
    constructor <;> linarith
  have hnew : (halley_step realMath incomplete_gamma 10 0.5 g s).value
      = r + (1 - ρ) * (s.value - r) := by
    rw [hval]
    rw [abs_le] at hxr
    have : ¬ (s.value - ρ * (s.value - r) ≤ 0) := by
      nlinarith
    rw [if_neg this]
    ring
  rw [hnew]
  have e1 : r + (1 - ρ) * (s.value - r) - r = (1 - ρ) * (s.value - r) := by ring
  rw [e1, abs_mul, abs_mul]
  have ha : |1 - ρ| ≤ 0.27 := by
    rw [abs_le]
    constructor <;> linarith
  have hb : |ρ| = ρ := abs_of_pos (by linarith)
  have hn := abs_nonneg (s.value - r)
  rw [hb]
  refine ⟨mul_le_mul_of_nonneg_right hρ2 hn, mul_le_mul_of_nonneg_right ha hn, ?_⟩
  have h33 : |1 - ρ| ≤ 0.33 * ρ := by linarith
  calc |1 - ρ| * |s.value - r| ≤ (0.33 * ρ) * |s.value - r| :=
        mul_le_mul_of_nonneg_right h33 hn
    _ = 0.33 * (ρ * |s.value - r|) := by ring


theorem exp_upper (y : ℝ) (h0 : 0 ≤ y) (h1 : y ≤ 1) :
    Real.exp (9 + y)
      ≤ 2.7182818286 ^ 9 * (∑ m in Finset.range 8, y ^ m / (m.factorial : ℝ)
          + y ^ 8 * (9 / (40320 * 8))) := by
  have he : Real.exp (9 + y) = Real.exp 1 ^ 9 * Real.exp y := by
    rw [← Real.exp_nat_mul, ← Real.exp_add]
    congr 1
    norm_num
  rw [he]
  have h := Real.exp_bound' h0 h1 (n := 8) (by norm_num)
  have h2 : Real.exp 1 ^ 9 ≤ 2.7182818286 ^ 9 :=
    pow_le_pow_left₀ (Real.exp_pos 1).le Real.exp_one_lt_d9.le 9
  have h3 : Real.exp y ≤ ∑ m in Finset.range 8, y ^ m / (m.factorial : ℝ)
      + y ^ 8 * (9 / (40320 * 8)) := by
    refine le_trans h (le_of_eq ?_)
    norm_num [Nat.factorial]
    ring
  exact mul_le_mul h2 h3 (Real.exp_pos y).le (by positivity)

theorem exp_lower (y : ℝ) (h0 : 0 ≤ y) :
    2.7182818283 ^ 9 * (∑ m in Finset.range 8, y ^ m / (m.factorial : ℝ))
      ≤ Real.exp (9 + y) := by
  have he : Real.exp (9 + y) = Real.exp 1 ^ 9 * Real.exp y := by
    rw [← Real.exp_nat_mul, ← Real.exp_add]
    congr 1
    norm_num
  rw [he]
  have h := Real.sum_le_exp_of_nonneg h0 8
  have h2 : (2.7182818283 : ℝ) ^ 9 ≤ Real.exp 1 ^ 9 :=
    pow_le_pow_left₀ (by norm_num) Real.exp_one_gt_d9.le 9
  have hs : 0 ≤ ∑ m in Finset.range 8, y ^ m / (m.factorial : ℝ) :=
    Finset.sum_nonneg (fun m _ => by positivity)
  exact mul_le_mul h2 h hs (by positivity)

theorem P_ten_le_half (x : ℝ) (h : Real.exp x * 181440 ≤ tail_poly x) :
    incomplete_gamma 10 x ≤ 0.5 := by
  rw [incomplete_gamma_ten, Real.exp_neg]
  have he := Real.exp_pos x
  have h4 : 0.5 ≤ (Real.exp x)⁻¹ * tail_poly x / 362880 := by
    rw [inv_mul_eq_div, div_div, le_div_iff₀ (by positivity)]
    linarith
  linarith

theorem P_ten_ge_half (x : ℝ) (h : tail_poly x ≤ Real.exp x * 181440) :
    0.5 ≤ incomplete_gamma 10 x := by
  rw [incomplete_gamma_ten, Real.exp_neg]
  have he := Real.exp_pos x
  have h4 : (Real.exp x)⁻¹ * tail_poly x / 362880 ≤ 0.5 := by
    rw [inv_mul_eq_div, div_div, div_le_iff₀ (by positivity)]
    linarith
  linarith

theorem exp_L : Real.exp 9.66865 * 181440 ≤ tail_poly 9.66865 := by
  have h := exp_upper 0.66865 (by norm_num) (by norm_num)
  have e : (9:ℝ) + 0.66865 = 9.66865 := by norm_num
  rw [e] at h
  have h2 : (2.7182818286 : ℝ) ^ 9 * (∑ m in Finset.range 8, (0.66865:ℝ) ^ m / (m.factorial : ℝ)
          + 0.66865 ^ 8 * (9 / (40320 * 8))) * 181440 ≤ tail_poly 9.66865 := by
    simp only [Finset.sum_range_succ, Finset.sum_range_zero, Nat.factorial, tail_poly]
    norm_num
  linarith

theorem exp_U : tail_poly 9.66878 ≤ Real.exp 9.66878 * 181440 := by
  have h := exp_lower 0.66878 (by norm_num)
  have e : (9:ℝ) + 0.66878 = 9.66878 := by norm_num
  rw [e] at h
  have h2 : tail_poly 9.66878 ≤ (2.7182818283 : ℝ) ^ 9
      * (∑ m in Finset.range 8, (0.66878:ℝ) ^ m / (m.factorial : ℝ)) * 181440 := by
    simp only [Finset.sum_range_succ, Finset.sum_range_zero, Nat.factorial, tail_poly]
    norm_num
  linarith


theorem sqrt_two_log_two_bounds :
    1.1774 ≤ Real.sqrt (-2.0 * Real.log 0.5) ∧ Real.sqrt (-2.0 * Real.log 0.5) ≤ 1.1775 := by
  have hlog : Real.log 0.5 = - Real.log 2 := by
    rw [show (0.5:ℝ) = 2⁻¹ by norm_num, Real.log_inv]
  have h1 := Real.log_two_gt_d9
  have h2 := Real.log_two_lt_d9
  rw [hlog]
  constructor
  · apply Real.le_sqrt_of_sq_le
    norm_num at h1 ⊢
    linarith
  · rw [Real.sqrt_le_left (by norm_num)]
    norm_num at h2 ⊢
    linarith

theorem sqrt_ten_bounds : 3.16 ≤ Real.sqrt 10 ∧ Real.sqrt 10 ≤ 3.17 := by
  constructor
  · apply Real.le_sqrt_of_sq_le
    norm_num
  · rw [Real.sqrt_le_left (by norm_num)]
    norm_num

theorem rational_quantile_small (t : ℝ) (h1 : 1.1774 ≤ t) (h2 : t ≤ 1.1775) :
    |t - (2.515517 + 0.802853 * t + 0.010328 * t * t)
        / (1.0 + 1.432788 * t + 0.189269 * t * t + 0.001308 * t * t * t)| ≤ 0.001 := by
  have ht0 : 0 < t := by linarith
  have ht2 : 1.1774 * 1.1774 ≤ t * t := mul_le_mul h1 h1 (by norm_num) ht0.le
  have ht2u : t * t ≤ 1.1775 * 1.1775 := mul_le_mul h2 h2 ht0.le (by norm_num)
  have ht3 : 1.1774 * 1.1774 * 1.1774 ≤ t * t * t := mul_le_mul ht2 h1 (by norm_num) (by positivity)
  have ht3u : t * t * t ≤ 1.1775 * 1.1775 * 1.1775 :=
    mul_le_mul ht2u h2 ht0.le (by norm_num)
  have hD : 0 < 1.0 + 1.432788 * t + 0.189269 * t * t + 0.001308 * t * t * t := by positivity
  have hDl : 2.9514 ≤ 1.0 + 1.432788 * t + 0.189269 * t * t + 0.001308 * t * t * t := by
    norm_num at ht2 ht3 ⊢
    linarith
  have hDu : 1.0 + 1.432788 * t + 0.189269 * t * t + 0.001308 * t * t * t ≤ 2.9517 := by
    norm_num at ht2u ht3u ⊢
    linarith
  have hNl : 3.4751 ≤ 2.515517 + 0.802853 * t + 0.010328 * t * t := by
    norm_num at ht2 ⊢
    linarith
  have hNu : 2.515517 + 0.802853 * t + 0.010328 * t * t ≤ 3.4752 := by
    norm_num at ht2u ⊢
    linarith
  generalize 1.0 + 1.432788 * t + 0.189269 * t * t + 0.001308 * t * t * t = D at hD hDl hDu
  generalize 2.515517 + 0.802853 * t + 0.010328 * t * t = N at hNl hNu
  rw [abs_le]
  constructor
  · have : N / D ≤ t + 0.001 := by
      rw [div_le_iff₀ hD]
      nlinarith
    linarith
  · have : t - 0.001 ≤ N / D := by
      rw [le_div_iff₀ hD]
      nlinarith
    linarith

theorem initial_guess_ten_bounds :
    9.66 ≤ initial_guess realMath 10 0.5 ∧ initial_guess realMath 10 0.5 ≤ 9.68 := by
  simp only [initial_guess, realMath]
  rw [if_pos (by norm_num : (10:ℝ) > 1.0)]
  simp only [if_neg (by norm_num : ¬ (0.5:ℝ) > 0.5)]
  obtain ⟨ht1, ht2⟩ := sqrt_two_log_two_bounds
  generalize Real.sqrt (-2.0 * Real.log 0.5) = t at ht1 ht2
  have hz := rational_quantile_small t ht1 ht2
  generalize t - (2.515517 + 0.802853 * t + 0.010328 * t * t)
        / (1.0 + 1.432788 * t + 0.189269 * t * t + 0.001308 * t * t * t) = z at hz
  obtain ⟨hw1, hw2⟩ := sqrt_ten_bounds
  generalize Real.sqrt 10 = w at hw1 hw2
  rw [abs_le] at hz
  have hw0 : 0 < 3.0 * w := by linarith
  have hu1 : -0.00011 ≤ z / (3.0 * w) := by
    rw [le_div_iff₀ hw0]
    nlinarith
  have hu2 : z / (3.0 * w) ≤ 0.00011 := by
    rw [div_le_iff₀ hw0]
    nlinarith
  generalize z / (3.0 * w) = u at hu1 hu2
  have hb1 : 0.98877 ≤ 1.0 - 1.0 / (9.0 * 10) - u := by
    norm_num at hu2 ⊢
    linarith
  have hb2 : 1.0 - 1.0 / (9.0 * 10) - u ≤ 0.989 := by
    norm_num at hu1 ⊢
    linarith
  generalize 1.0 - 1.0 / (9.0 * 10) - u = b at hb1 hb2
  have h3 : b ^ (3:ℝ) = b ^ 3 := by
    rw [show (3:ℝ) = ((3:ℕ):ℝ) by norm_num, Real.rpow_natCast]
  rw [h3]
  have hp1 : (0.98877:ℝ) ^ 3 ≤ b ^ 3 := pow_le_pow_left₀ (by norm_num) hb1 3
  have hp2 : b ^ 3 ≤ (0.989:ℝ) ^ 3 := pow_le_pow_left₀ (by linarith) hb2 3
  have hm : max (1E-04:ℝ) (10 * b ^ 3) = 10 * b ^ 3 := by
    apply max_eq_right
    norm_num at hp1 ⊢
    linarith
  rw [hm]
  constructor
  · norm_num at hp1 ⊢
    linarith
  · norm_num at hp2 ⊢
    linarith

theorem density_le_one (x : ℝ) (h1 : 9.6 ≤ x) (h2 : x ≤ 9.75) : gamma_ten_density x ≤ 1 := by
  unfold gamma_ten_density
  have hx0 : 0 ≤ x := by linarith
  have hp : x ^ 9 ≤ (9.75:ℝ) ^ 9 := pow_le_pow_left₀ hx0 h2 9
  have he : (8000:ℝ) ≤ Real.exp x := by
    have h := exp_lower (x - 9) (by linarith)
    rw [show 9 + (x - 9) = x by ring] at h
    refine le_trans ?_ h
    have hs : (1:ℝ) ≤ ∑ m in Finset.range 8, (x - 9) ^ m / (m.factorial : ℝ) := by
      rw [Finset.sum_range_succ']
      have : 0 ≤ ∑ k in Finset.range 7, (x - 9) ^ (k + 1) / ((k + 1).factorial : ℝ) :=
        Finset.sum_nonneg (fun m _ => div_nonneg (pow_nonneg (by linarith) _) (by positivity))
      simp only [pow_zero, Nat.factorial_zero, Nat.cast_one, div_one]
      linarith
    have h9 : (8000:ℝ) ≤ 2.7182818283 ^ 9 := by norm_num
    nlinarith
  rw [Real.exp_neg, div_le_one (by norm_num)]
  have hinv : (Real.exp x)⁻¹ ≤ (8000:ℝ)⁻¹ := inv_anti₀ (by norm_num) he
  have hx9 : 0 ≤ x ^ 9 := pow_nonneg hx0 9
  calc x ^ 9 * (Real.exp x)⁻¹ ≤ (9.75:ℝ) ^ 9 * (8000:ℝ)⁻¹ :=
        mul_le_mul hp hinv (inv_nonneg.2 (Real.exp_pos x).le) (by positivity)
    _ ≤ 362880 := by norm_num

theorem root_bracket :
    ∃ r : ℝ, 9.66865 ≤ r ∧ r ≤ 9.66878 ∧ incomplete_gamma 10 r = 0.5 := by
  have hL := P_ten_le_half 9.66865 exp_L
  have hU := P_ten_ge_half 9.66878 exp_U
  have hivt := intermediate_value_Icc (a := (9.66865:ℝ)) (b := 9.66878) (by norm_num)
    P_ten_continuous.continuousOn
  obtain ⟨r, hr, hr2⟩ := hivt ⟨hL, hU⟩
  exact ⟨r, hr.1, hr.2, hr2⟩

theorem near_root_init (r x : ℝ) (hr1 : 9.66 ≤ r) (hr2 : r ≤ 9.68) (hx1 : 9.66 ≤ x)
    (hx2 : x ≤ 9.68) : near_root_inv r (loop_init x) := by
  refine ⟨?_, ?_, ?_, ?_, ?_⟩
  · show (9.6:ℝ) ≤ x
    linarith
  · show x ≤ (9.75:ℝ)
    linarith
  · show |x - r| ≤ 0.02 * 0.27 ^ 0
    rw [abs_le]
    constructor <;> norm_num <;> linarith
  · show 0 ≤ 13
    omega
  · intro h
    exact absurd h (by show ¬ (1 ≤ 0); omega)

theorem near_root_step (r : ℝ) (hr1 : 9.66865 ≤ r) (hr2 : r ≤ 9.66878)
    (hr : incomplete_gamma 10 r = 0.5) (s : LoopState ℝ) (hg : loop_guard s)
    (hs : near_root_inv r s) :
    near_root_inv r (halley_step realMath incomplete_gamma 10 0.5 (realMath.lgamma 10) s) := by
  obtain ⟨h1, h2, h3, h4, h5⟩ := hs
  obtain ⟨k1, k2, k3⟩ := halley_step_near_root s r (realMath.lgamma 10) lgamma_real_ten h1 h2
    (by linarith) (by linarith) hr
  have hit : (halley_step realMath incomplete_gamma 10 0.5 (realMath.lgamma 10) s).iter
      = s.iter + 1 := rfl
  have hpow0 : (0:ℝ) < 0.27 ^ s.iter := by positivity
  have hpow1 : (0.27:ℝ) ^ s.iter ≤ 1 := pow_le_one₀ (by norm_num) (by norm_num)
  have hnew : |(halley_step realMath incomplete_gamma 10 0.5 (realMath.lgamma 10) s).value - r|
      ≤ 0.02 * 0.27 ^ (s.iter + 1) := by
    rw [pow_succ]
    linarith
  have hlt : s.iter ≤ 12 := by
    by_contra hne
    have h13 : s.iter = 13 := by omega
    have hh := (h5 (by omega)).1
    rw [h13] at hh
    have hge : |s.halley_direc| ≥ err_tol := hg.1
    unfold err_tol at hge
    norm_num at hh hge
    linarith
  have hsmall : |(halley_step realMath incomplete_gamma 10 0.5 (realMath.lgamma 10) s).value
      - r| ≤ 0.0054 := by linarith
  rw [abs_le] at hsmall
  refine ⟨?_, ?_, ?_, ?_, ?_⟩
  · linarith [hsmall.1]
  · linarith [hsmall.2]
  · rw [hit]
    exact hnew
  · rw [hit]
    omega
  · intro _
    rw [hit, Nat.add_sub_cancel]
    exact ⟨by linarith, k3⟩

theorem scenario_ten_exit (r : ℝ) (hr1 : 9.66865 ≤ r) (hr2 : r ≤ 9.66878)
    (hr : incomplete_gamma 10 r = 0.5) :
    (halley_loop realMath incomplete_gamma 10 0.5 (realMath.lgamma 10)
        (loop_init (initial_guess realMath 10 0.5))).iter < iter_max
      ∧ |(halley_loop realMath incomplete_gamma 10 0.5 (realMath.lgamma 10)
        (loop_init (initial_guess realMath 10 0.5))).halley_direc| < err_tol
      ∧ 9.6 ≤ (halley_loop realMath incomplete_gamma 10 0.5 (realMath.lgamma 10)
        (loop_init (initial_guess realMath 10 0.5))).value
      ∧ (halley_loop realMath incomplete_gamma 10 0.5 (realMath.lgamma 10)
        (loop_init (initial_guess realMath 10 0.5))).value ≤ 9.75
      ∧ |(halley_loop realMath incomplete_gamma 10 0.5 (realMath.lgamma 10)
        (loop_init (initial_guess realMath 10 0.5))).value - r| ≤ 0.33 * 1e-8 := by
  obtain ⟨hx1, hx2⟩ := initial_guess_ten_bounds
  have hx0 : 0 < initial_guess realMath 10 0.5 := by linarith
  obtain ⟨_, _, hit, _⟩ := halley_loop_exit realMath incomplete_gamma 10 0.5
    (realMath.lgamma 10) _ hx0
  obtain ⟨hinv, hng⟩ := halley_loop_rule realMath incomplete_gamma 10 0.5 (realMath.lgamma 10)
    (near_root_inv r) (near_root_step r hr1 hr2 hr) _
    (near_root_init r _ (by linarith) (by linarith) hx1 hx2)
  obtain ⟨h1, h2, _, h4, h5⟩ := hinv
  have hlt : (halley_loop realMath incomplete_gamma 10 0.5 (realMath.lgamma 10)
        (loop_init (initial_guess realMath 10 0.5))).iter < iter_max := by
    unfold iter_max
    omega
  have hh : |(halley_loop realMath incomplete_gamma 10 0.5 (realMath.lgamma 10)
        (loop_init (initial_guess realMath 10 0.5))).halley_direc| < err_tol := by
    by_contra hne
    exact hng ⟨not_lt.1 hne, hlt⟩
  refine ⟨hlt, hh, h1, h2, ?_⟩
  have h6 := (h5 hit).2
  unfold err_tol at hh
  linarith

/-! ## The step and the estimators against the words of the spec -/

section SpecLemmas

variable {α : Type} [LinearOrderedField α]

theorem p_term_eq_log_min (m : CMath α) (p : α) :
    (if p > 0.5 then m.log (1.0 - p) else m.log p) = m.log (min p (1 - p)) := by
  have h1 : (1.0 : α) = 1 := by norm_num
  rw [h1]
  split_ifs with h
  · rw [min_eq_right]
    norm_num at h
    linarith
  · rw [min_eq_left]
    norm_num at h
    linarith

theorem real_pow_three (b : ℝ) : realMath.pow b 3 = b ^ 3 := by
  show b ^ (3:ℝ) = b ^ 3
  rw [show (3:ℝ) = ((3:ℕ):ℝ) by norm_num, Real.rpow_natCast]

theorem small_threshold_bounds (a : ℝ) (ha0 : 0 < a) (ha1 : a ≤ 1) :
    0.627 ≤ 1.0 - 0.253 * a - 0.12 * a * a ∧ 1.0 - 0.253 * a - 0.12 * a * a < 1 := by
  constructor
  · norm_num
    nlinarith
  · norm_num
    nlinarith

theorem initial_guess_small_power (a p : ℝ) (ha1 : a ≤ 1) (hp : p < 1.0 - 0.253 * a - 0.12 * a * a) :
    initial_guess realMath a p = (p / (1.0 - 0.253 * a - 0.12 * a * a)) ^ (1 / a) := by
  have h : ¬ a > 1.0 := by
    norm_num
    exact ha1
  simp only [initial_guess, realMath, if_neg h, if_pos hp]
  norm_num

end SpecLemmas

/-! ## The claims -/

section Claims

variable {α : Type} [LinearOrderedField α]

/-- C3. Failure containment: whenever the closed-form initial guess is `<= 0`,
`incomplete_gamma_inv` returns `false` with output exactly `0` and the
`value <= 0` diagnostic, the loop is never reached (zero loop bodies, no
evaluator call), and the outcome is the same for every evaluator. -/
theorem C3_failure_containment (m : CMath α) (P : α → α → α) (a p ret : α)
    (h : initial_guess m a p ≤ 0) :
    (incomplete_gamma_inv m P a p ret).success = false
      ∧ (incomplete_gamma_inv m P a p ret).ret = 0
      ∧ (incomplete_gamma_inv m P a p ret).diag = some Diagnostic.value_nonpositive
      ∧ (incomplete_gamma_inv m P a p ret).loop = none
      ∧ (incomplete_gamma_inv m P a p ret).iterations = 0
      ∧ (incomplete_gamma_inv m P a p ret).evaluator_calls = []
      ∧ ∀ P2 : α → α → α, incomplete_gamma_inv m P2 a p ret = incomplete_gamma_inv m P a p ret := by
  refine ⟨?_, ?_, ?_, ?_, ?_, ?_, ?_⟩
  all_goals try rw [incomplete_gamma_inv_of_nonpos m P a p ret h]
  all_goals try rfl
  intro P2
  rw [incomplete_gamma_inv_of_nonpos m P2 a p ret h]

/-- Witness of C3: shape `1` and level `0` give the initial guess `0`. -/
theorem C3_failure_containment_witness :
    initial_guess realMath 1 0 ≤ 0
      ∧ (incomplete_gamma_inv realMath (const_evaluator 0.5) 1 0 7).success = false
      ∧ (incomplete_gamma_inv realMath (const_evaluator 0.5) 1 0 7).ret = 0 :=
  have h : initial_guess realMath 1 0 ≤ 0 := le_of_eq initial_guess_real_zero
  ⟨h, (C3_failure_containment realMath (const_evaluator 0.5) 1 0 7 h).1,
    (C3_failure_containment realMath (const_evaluator 0.5) 1 0 7 h).2.1⟩

/-- C4. Bounded termination: for every input the call returns a flag (the
embedding is a total function), and when the initial guess is positive the
loop is left with its guard false after at least `1` and at most `1000` loop
bodies, each of which calls the evaluator exactly once. -/
theorem C4_bounded_termination (m : CMath α) (P : α → α → α) (a p ret : α) :
    ((incomplete_gamma_inv m P a p ret).success = true
        ∨ (incomplete_gamma_inv m P a p ret).success = false)
      ∧ (0 < initial_guess m a p →
          (∃ s : LoopState α, (incomplete_gamma_inv m P a p ret).loop = some s
              ∧ ¬ loop_guard s)
          ∧ 1 ≤ (incomplete_gamma_inv m P a p ret).iterations
          ∧ (incomplete_gamma_inv m P a p ret).iterations ≤ 1000
          ∧ (incomplete_gamma_inv m P a p ret).evaluator_calls.length
              = (incomplete_gamma_inv m P a p ret).iterations) := by
  constructor
  · cases (incomplete_gamma_inv m P a p ret).success
    · exact Or.inr rfl
    · exact Or.inl rfl
  · intro hx
    obtain ⟨hinv, hng, hit, _⟩ := halley_loop_exit m P a p (m.lgamma a) _ hx
    have hle : (halley_loop m P a p (m.lgamma a) (loop_init (initial_guess m a p))).iter ≤ 1000 :=
      hinv.2.1
    rw [incomplete_gamma_inv_of_pos m P a p ret hx]
    split_ifs
    · exact ⟨⟨_, rfl, hng⟩, hit, hle, hinv.2.2.1⟩
    · exact ⟨⟨_, rfl, hng⟩, hit, hle, hinv.2.2.1⟩

/-- Witness of C4: shape `1`, level `0.627` start the loop at `x0 = 1`. -/
theorem C4_bounded_termination_witness :
    0 < initial_guess realMath 1 0.627
      ∧ 1 ≤ (incomplete_gamma_inv realMath (late_root_evaluator 2000) 1 0.627 0).iterations
      ∧ (incomplete_gamma_inv realMath (late_root_evaluator 2000) 1 0.627 0).iterations ≤ 1000 :=
  have h : 0 < initial_guess realMath 1 0.627 := initial_guess_real_one_pos
  ⟨h, ((C4_bounded_termination realMath (late_root_evaluator 2000) 1 0.627 0).2 h).2.1,
    ((C4_bounded_termination realMath (late_root_evaluator 2000) 1 0.627 0).2 h).2.2.1⟩

/-- C8. Output on non-convergence: with a positive initial guess, a call that
returns `false` leaves the output parameter as the caller passed it. -/
theorem C8_output_on_nonconvergence (m : CMath α) (P : α → α → α) (a p ret : α)
    (hx : 0 < initial_guess m a p)
    (hf : (incomplete_gamma_inv m P a p ret).success = false) :
    (incomplete_gamma_inv m P a p ret).ret = ret := by
  rw [incomplete_gamma_inv_of_pos m P a p ret hx] at hf ⊢
  split_ifs at hf ⊢
  rfl

/-- Witness of C8: shape `1`, level `0.627`, root placed at `2000`, caller
value `42`. -/
theorem C8_output_on_nonconvergence_witness :
    0 < initial_guess realMath 1 0.627
      ∧ (incomplete_gamma_inv realMath (late_root_evaluator 2000) 1 0.627 42).success = false
      ∧ (incomplete_gamma_inv realMath (late_root_evaluator 2000) 1 0.627 42).ret = 42 :=
  ⟨initial_guess_real_one_pos, (late_root_outcome 2000 (by norm_num) 42).1,
    C8_output_on_nonconvergence realMath (late_root_evaluator 2000) 1 0.627 42
      initial_guess_real_one_pos (late_root_outcome 2000 (by norm_num) 42).1⟩

/-- C9. Concrete scenario `a = 10.0`, `p = 0.5`, in the real-number model with
the evaluator read as the regularized lower incomplete gamma function:
`incomplete_gamma_inv` returns success, the returned `x` is within `1e-4` of
`9.6687`, and `|P(10, x) - 0.5| < 1e-6`. -/
theorem C9_scenario_ten (ret : ℝ) :
    (incomplete_gamma_inv realMath incomplete_gamma 10 0.5 ret).success = true
      ∧ |(incomplete_gamma_inv realMath incomplete_gamma 10 0.5 ret).ret - 9.6687| < 1e-4
      ∧ |incomplete_gamma 10 (incomplete_gamma_inv realMath incomplete_gamma 10 0.5 ret).ret
          - 0.5| < 1e-6 := by
  obtain ⟨r, hr1, hr2, hr⟩ := root_bracket
  obtain ⟨h1, h2, h3, h4, h5⟩ := scenario_ten_exit r hr1 hr2 hr
  have hx0 : 0 < initial_guess realMath 10 0.5 := by linarith [initial_guess_ten_bounds.1]
  rw [incomplete_gamma_inv_of_pos realMath incomplete_gamma 10 0.5 ret hx0, if_pos ⟨h2, h1⟩]
  refine ⟨rfl, ?_, ?_⟩
  · show |(halley_loop realMath incomplete_gamma 10 0.5 (realMath.lgamma 10)
        (loop_init (initial_guess realMath 10 0.5))).value - 9.6687| < 1e-4
    rw [abs_le] at h5
    rw [abs_lt]
    constructor <;> norm_num at h5 ⊢ <;> linarith [h5.1, h5.2]
  · show |incomplete_gamma 10 (halley_loop realMath incomplete_gamma 10 0.5
        (realMath.lgamma 10) (loop_init (initial_guess realMath 10 0.5))).value - 0.5| < 1e-6
    generalize (halley_loop realMath incomplete_gamma 10 0.5
        (realMath.lgamma 10) (loop_init (initial_guess realMath 10 0.5))).value = x at h3 h4 h5
    obtain ⟨q, hq1, hq2, hq⟩ := newton_ratio x r h3 h4 (by linarith) (by linarith) hr
    have hf0 := density_pos x (by linarith)
    have hf1 := density_le_one x h3 h4
    have hres : incomplete_gamma 10 x - 0.5 = gamma_ten_density x * (q * (x - r)) := by
      rw [← hq]
      field_simp
    rw [hres, abs_mul, abs_mul, abs_of_pos hf0, abs_of_pos (by linarith : (0:ℝ) < q)]
    have hn := abs_nonneg (x - r)
    have hqx : q * |x - r| ≤ 1.0122 * (0.33 * 1e-8) :=
      mul_le_mul hq2 h5 hn (by norm_num)
    have hqx0 : 0 ≤ q * |x - r| := mul_nonneg (by linarith) hn
    calc gamma_ten_density x * (q * |x - r|) ≤ 1 * (q * |x - r|) :=
          mul_le_mul_of_nonneg_right hf1 hqx0
      _ < 1e-6 := by
          norm_num at hqx ⊢
          linarith

/-- C10. Concrete scenario `a = 0.5`, `p = 0.9`: the shape is not above `1`, the
threshold is `t = 1 - 0.253*0.5 - 0.12*0.25 = 0.8435`, `p` is not below it, and
the initial guess is the log-tail value
`1 - ln(1 - (0.9 - 0.8435)/(1 - 0.8435))` (for every math library); with the
real logarithm it is at least `1` and within `0.001` of `1.448`. -/
theorem C10_small_shape_log_tail :
    ¬ ((0.5 : ℝ) > 1.0)
      ∧ (1.0 : ℝ) - 0.253 * 0.5 - 0.12 * 0.5 * 0.5 = 0.8435
      ∧ ¬ ((0.9 : ℝ) < 0.8435)
      ∧ (∀ (β : Type) [LinearOrderedField β] (m : CMath β),
          initial_guess m 0.5 0.9 = 1 - m.log (1 - (0.9 - 0.8435) / (1 - 0.8435)))
      ∧ initial_guess realMath 0.5 0.9 = 1 - Real.log (1 - (0.9 - 0.8435) / (1 - 0.8435))
      ∧ 1 ≤ initial_guess realMath 0.5 0.9
      ∧ |initial_guess realMath 0.5 0.9 - 1.448| < 0.001 := by
  obtain ⟨h1, h2⟩ := log_ratio_bounds
  have h3 : initial_guess realMath 0.5 0.9 = 1 - Real.log (1 - (0.9 - 0.8435) / (1 - 0.8435)) :=
    initial_guess_small_tail realMath
  refine ⟨by norm_num, by norm_num, by norm_num, fun β _ m => initial_guess_small_tail m, h3, ?_, ?_⟩
  · rw [h3]
    linarith
  · rw [h3, abs_lt]
    constructor
    · norm_num at h2 ⊢
      linarith
    · norm_num at h1 ⊢
      linarith

/-- C13. Large-shape estimator: for every `a > 1` and every `p` (in particular
`p` in `(0,1)`), with a math library whose `pow(·, 3)` is the cube, the
initial guess is the spec's formula
`max(1e-4, a*(1 - 1/(9a) - z/(3*sqrt(a)))^3)` with
`t = sqrt(-2 ln(min(p, 1-p)))`; hence it is at least `1e-4`, whatever the sign
of the cube. -/
theorem C13_large_shape_estimator (m : CMath α) (hpow : ∀ b : α, m.pow b 3 = b ^ 3)
    (a p : α) (ha : 1 < a) :
    initial_guess m a p = spec_large_shape_guess m a p
      ∧ 1e-4 ≤ initial_guess m a p := by
  have ha1 : a > 1.0 := by
    norm_num
    exact ha
  have hform : initial_guess m a p = spec_large_shape_guess m a p := by
    simp only [initial_guess, if_pos ha1, p_term_eq_log_min, spec_large_shape_guess, hpow]
    have h1 : (1.0 : α) = 1 := by norm_num
    have h2 : (2.0 : α) = 2 := by norm_num
    have h3 : (3.0 : α) = 3 := by norm_num
    have h9 : (9.0 : α) = 9 := by norm_num
    rw [h1, h2, h3, h9]
    split_ifs with hp
    · congr 2
      ring
    · congr 2
      ring
  refine ⟨hform, ?_⟩
  rw [hform]
  exact le_max_left _ _

/-- Witness of C13: the real math library, shape `10`, level `0.5`. -/
theorem C13_large_shape_estimator_witness :
    (∀ b : ℝ, realMath.pow b 3 = b ^ 3) ∧ (1:ℝ) < 10
      ∧ initial_guess realMath 10 0.5 = spec_large_shape_guess realMath 10 0.5
      ∧ 1e-4 ≤ initial_guess realMath 10 0.5 :=
  ⟨real_pow_three, by norm_num,
    C13_large_shape_estimator realMath real_pow_three 10 0.5 (by norm_num)⟩

/-- C15. Boundary `p = 0` in the small-shape regime, in the real-number model:
for every `a` with `0 < a <= 1` the threshold is positive, the power-law branch
gives `x0 = (0/t)^(1/a) = 0`, and `incomplete_gamma_inv` returns `false` with
output `0` and the `value <= 0` diagnostic, without reaching the loop or
calling the evaluator. -/
theorem C15_boundary_p_zero (a : ℝ) (ha0 : 0 < a) (ha1 : a ≤ 1) (P : ℝ → ℝ → ℝ) (ret : ℝ) :
    (0:ℝ) < small_shape_threshold a
      ∧ initial_guess realMath a 0 = (0 / small_shape_threshold a) ^ (1 / a)
      ∧ initial_guess realMath a 0 = 0
      ∧ (incomplete_gamma_inv realMath P a 0 ret).success = false
      ∧ (incomplete_gamma_inv realMath P a 0 ret).ret = 0
      ∧ (incomplete_gamma_inv realMath P a 0 ret).diag = some Diagnostic.value_nonpositive
      ∧ (incomplete_gamma_inv realMath P a 0 ret).loop = none
      ∧ (incomplete_gamma_inv realMath P a 0 ret).evaluator_calls = [] := by
  have ht : (0:ℝ) < 1.0 - 0.253 * a - 0.12 * a * a := by
    linarith [(small_threshold_bounds a ha0 ha1).1]
  have hform := initial_guess_small_power a 0 ha1 ht
  have hzero : initial_guess realMath a 0 = 0 := by
    rw [hform, zero_div, Real.zero_rpow (one_div_pos.2 ha0).ne']
  have hout := incomplete_gamma_inv_of_nonpos realMath P a 0 ret (le_of_eq hzero)
  refine ⟨ht, hform, hzero, ?_, ?_, ?_, ?_, ?_⟩
  all_goals rw [hout]
  all_goals rfl

/-- Witness of C15: shape `0.5`. -/
theorem C15_boundary_p_zero_witness :
    (0:ℝ) < 0.5 ∧ (0.5:ℝ) ≤ 1
      ∧ (incomplete_gamma_inv realMath (const_evaluator 0.5) 0.5 0 7).success = false
      ∧ (incomplete_gamma_inv realMath (const_evaluator 0.5) 0.5 0 7).ret = 0 :=
  ⟨by norm_num, by norm_num,
    (C15_boundary_p_zero 0.5 (by norm_num) (by norm_num) (const_evaluator 0.5) 7).2.2.2.1,
    (C15_boundary_p_zero 0.5 (by norm_num) (by norm_num) (const_evaluator 0.5) 7).2.2.2.2.1⟩

end Claims

end Stats
